import Mathlib

/-!
Verification of the synapse-operator convergence controller.

The Go source is shallowly embedded: Go strings and byte slices are byte
sequences, modelled as `List Nat`; Go maps (`map[string]string`,
`map[string][]byte`, `map[string]struct{}`) are association lists / key lists
with unique keys (a Go map invariant); the SHA-256 + hex pipeline is a
parameter `hash : List Nat → List Nat` mapping the byte stream fed to the
hasher to the (hex-encoded) digest; theorems that need collision freedom take
`Function.Injective hash` as a hypothesis, matching the spec's "with
overwhelming probability" reading, and `hash` output is compared against the
empty string `[]` exactly where the source compares a digest against `""`
(a real hex digest is never empty, so `∀ l, hash l ≠ []` models that). The
object store is an oracle `Client` of read/patch operations returning
`Except`/`Option` errors; a reconciliation pass returns its error outcome plus
the trace of list/patch calls it performed.
-/

namespace SynapseOperator

/-- A Go string / byte slice: a sequence of byte values. -/
abbrev GoStr := List Nat

/-- Byte list of a Lean string literal (all literals used are ASCII, so code
points coincide with bytes). -/
def gs (s : String) : GoStr := s.data.map Char.toNat

/-- Go's lexicographic byte order on strings (`<`), as used by `sort.Strings`
and by the `entries[i].key < entries[j].key` comparator. -/
def bytesLt : GoStr → GoStr → Bool
  | [], [] => false
  | [], _ :: _ => true
  | _ :: _, [] => false
  | a :: as, b :: bs => if a < b then true else if b < a then false else bytesLt as bs

/-- Non-strict byte order derived from `bytesLt`. -/
def bytesLe (a b : GoStr) : Bool := !bytesLt b a

/-- Sorting relation on tagged keys. -/
def keyLe (a b : GoStr) : Prop := bytesLe a b = true

instance : DecidableRel keyLe := fun a b => by unfold keyLe; infer_instance

/-- Association-list lookup, modelling Go map indexing (keys are unique). -/
def findVal {α : Type} (l : List (GoStr × α)) (k : GoStr) : Option α :=
  match l with
  | [] => none
  | p :: rest => if p.1 = k then some p.2 else findVal rest k

/-- Association-list update, modelling Go map assignment `m[k] = v`. -/
def setVal {α : Type} (l : List (GoStr × α)) (k : GoStr) (v : α) : List (GoStr × α) :=
  match l with
  | [] => [(k, v)]
  | p :: rest => if p.1 = k then (k, v) :: rest else p :: setVal rest k v

/-- Association-list deletion, modelling Go `delete(m, k)`. -/
def eraseKey {α : Type} (l : List (GoStr × α)) (k : GoStr) : List (GoStr × α) :=
  l.filter (fun q => !decide (q.1 = k))

/-- A ConfigMap: name, labels, text entries (`Data`) and binary entries
(`BinaryData`). -/
structure ConfigMap where
  name : GoStr
  labels : List (GoStr × GoStr)
  data : List (GoStr × GoStr)
  binaryData : List (GoStr × GoStr)
deriving DecidableEq

/-- A Secret: name, labels and (binary-valued) entries (`Data`). -/
structure Secret where
  name : GoStr
  labels : List (GoStr × GoStr)
  data : List (GoStr × GoStr)
deriving DecidableEq

/-- `shouldIgnoreKey` from the source: false on an empty/nil exclusion set,
otherwise map membership. -/
def shouldIgnoreKey (key : GoStr) (ignoredKeys : List GoStr) : Bool :=
  if ignoredKeys.length = 0 then false
  else decide (key ∈ ignoredKeys)

/-- The surviving tagged keys of `hashConfigMapContent`: text keys prefixed
with "s:", binary keys prefixed with "b:", excluded keys dropped. -/
def cmKeys (cfg : ConfigMap) (ignoredKeys : List GoStr) : List GoStr :=
  ((cfg.data.map Prod.fst).filter (fun k => !shouldIgnoreKey k ignoredKeys)).map
      (fun k => gs "s:" ++ k)
    ++ ((cfg.binaryData.map Prod.fst).filter (fun k => !shouldIgnoreKey k ignoredKeys)).map
      (fun k => gs "b:" ++ k)

/-- The bytes hashed for one tagged key in `hashConfigMapContent`'s loop.
The source guards each case with `len(k) > 2 && k[0:2] == "s:"` (resp. "b:"),
so a tagged key of byte length two or less (an empty entry key) matches no
case and only the trailing NUL separator is written. -/
def taggedBlock (cfg : ConfigMap) (tk : GoStr) : GoStr :=
  match tk with
  | 115 :: 58 :: c :: rest =>
      let key := c :: rest
      115 :: key ++ 0 :: (findVal cfg.data key).getD [] ++ [0]
  | 98 :: 58 :: c :: rest =>
      let key := c :: rest
      98 :: key ++ 0 :: (findVal cfg.binaryData key).getD [] ++ [0]
  | _ => [0]

/-- `hashConfigMapContent` (generalized variant, with its exclusion set):
empty fingerprint for a source with no entries or no surviving entries,
otherwise the digest of the sorted tagged-key blocks. -/
def hashConfigMapContent (hash : GoStr → GoStr) (cfg : ConfigMap)
    (ignoredKeys : List GoStr) : GoStr :=
  if cfg.data = [] ∧ cfg.binaryData = [] then []
  else if cmKeys cfg ignoredKeys = [] then []
  else hash ((List.insertionSort keyLe (cmKeys cfg ignoredKeys)).map (taggedBlock cfg)).flatten

/-- The surviving tagged keys of `hashSecretContent` ("d:" prefix). -/
def secretKeys (secret : Secret) (ignoredKeys : List GoStr) : List GoStr :=
  ((secret.data.map Prod.fst).filter (fun k => !shouldIgnoreKey k ignoredKeys)).map
    (fun k => gs "d:" ++ k)

/-- The bytes hashed for one tagged key in `hashSecretContent`'s loop; the
source slices `key := k[2:]` unconditionally. -/
def secretBlock (secret : Secret) (tk : GoStr) : GoStr :=
  let key := tk.drop 2
  100 :: key ++ 0 :: (findVal secret.data key).getD [] ++ [0]

/-- `hashSecretContent` from the source. -/
def hashSecretContent (hash : GoStr → GoStr) (secret : Secret)
    (ignoredKeys : List GoStr) : GoStr :=
  if secret.data = [] then []
  else if secretKeys secret ignoredKeys = [] then []
  else hash ((List.insertionSort keyLe (secretKeys secret ignoredKeys)).map
      (secretBlock secret)).flatten

/-- An aggregate entry: canonical source identity and per-source fingerprint. -/
abbrev SourceEntry := GoStr × GoStr

/-- Sorting relation of `sort.Slice(entries, ...)`: by canonical identity. -/
def entryKeyLe (a b : SourceEntry) : Prop := bytesLe a.1 b.1 = true

instance : DecidableRel entryKeyLe := fun a b => by unfold entryKeyLe; infer_instance

/-- The contributing `(identity, fingerprint)` entries of `hashConfigSources`:
ConfigMaps first, then Secrets, sources with empty fingerprints dropped. -/
def sourceEntries (hash : GoStr → GoStr) (configMaps : List ConfigMap)
    (secrets : List Secret) (ignoredConfigMapKeys ignoredSecretKeys : List GoStr) :
    List SourceEntry :=
  configMaps.filterMap (fun cfg =>
    let h := hashConfigMapContent hash cfg ignoredConfigMapKeys
    if h = [] then none else some (gs "configmap/" ++ cfg.name, h))
  ++ secrets.filterMap (fun secret =>
    let h := hashSecretContent hash secret ignoredSecretKeys
    if h = [] then none else some (gs "secret/" ++ secret.name, h))

/-- The bytes hashed for one aggregate entry: identity, NUL, fingerprint, NUL. -/
def aggregateBlock (e : SourceEntry) : GoStr := e.1 ++ 0 :: e.2 ++ [0]

/-- `hashConfigSources` from the source: empty when no source contributes,
otherwise the digest over the identity-sorted entries. -/
def hashConfigSources (hash : GoStr → GoStr) (configMaps : List ConfigMap)
    (secrets : List Secret) (ignoredConfigMapKeys ignoredSecretKeys : List GoStr) : GoStr :=
  let entries := sourceEntries hash configMaps secrets ignoredConfigMapKeys ignoredSecretKeys
  if entries = [] then []
  else hash ((List.insertionSort entryKeyLe entries).map aggregateBlock).flatten

/-- `hashConfigMapContent` of the simple variant
(controllers/configmap_controller.go): no exclusion filtering and no
empty-keys check after tagging. -/
def hashConfigMapContentSimple (hash : GoStr → GoStr) (cfg : ConfigMap) : GoStr :=
  if cfg.data = [] ∧ cfg.binaryData = [] then []
  else hash ((List.insertionSort keyLe
      ((cfg.data.map Prod.fst).map (fun k => gs "s:" ++ k)
        ++ (cfg.binaryData.map Prod.fst).map (fun k => gs "b:" ++ k))).map
      (taggedBlock cfg)).flatten

/-! ## Convergence engine (generalized reconciler) -/

/-- An object-store error: `notFound` is the benign existence-probe signal,
`fault` any other (hard) error. -/
inductive StoreErr
  | notFound
  | fault (code : Nat)
deriving DecidableEq

/-- A namespaced request identifier. -/
structure NsName where
  ns : GoStr
  name : GoStr
deriving DecidableEq

/-- A workload (Deployment / DaemonSet / StatefulSet): name, labels, and the
pod-template annotation map. -/
structure Workload where
  name : GoStr
  labels : List (GoStr × GoStr)
  tmplAnnotations : List (GoStr × GoStr)
deriving DecidableEq

/-- The three supported workload kinds, in the fixed propagation order. -/
inductive WKind
  | deployment
  | daemonSet
  | statefulSet
deriving DecidableEq

/-- One observable object-store operation of a reconciliation pass (the list
calls and the issued patch writes). -/
inductive Event
  | listConfigMaps
  | listSecrets
  | listWorkloads (kind : WKind)
  | patchWorkload (kind : WKind) (name : GoStr) (annotationKey : GoStr) (value : GoStr)
deriving DecidableEq

/-- Whether an event is a patch write. -/
def Event.isPatch : Event → Bool
  | .patchWorkload _ _ _ _ => true
  | _ => false

/-- The object-store oracle a pass runs against: every read either yields a
snapshot or an error; every patch write either succeeds or yields an error.
List results are already scoped to the request namespace and the active label
selector, which the source passes to every List call. -/
structure Client where
  getConfigMap : NsName → Except StoreErr ConfigMap
  getSecret : NsName → Except StoreErr Secret
  listConfigMaps : GoStr → Except StoreErr (List ConfigMap)
  listSecrets : GoStr → Except StoreErr (List Secret)
  listDeployments : GoStr → Except StoreErr (List Workload)
  listDaemonSets : GoStr → Except StoreErr (List Workload)
  listStatefulSets : GoStr → Except StoreErr (List Workload)
  patchDeployment : Workload → Option StoreErr
  patchDaemonSet : Workload → Option StoreErr
  patchStatefulSet : Workload → Option StoreErr

/-- The reconciler's configuration (flags fixed at startup). -/
structure GenCfg where
  annotationKey : GoStr
  ignoredConfigMapKeys : List GoStr
  ignoredSecretKeys : List GoStr

/-- Read a workload's pod-template annotation; a missing key reads as the
empty string, as Go map indexing does. -/
def getAnn (w : Workload) (key : GoStr) : GoStr :=
  (findVal w.tmplAnnotations key).getD []

/-- Set a workload's pod-template annotation (creating the map if absent). -/
def setAnn (w : Workload) (key : GoStr) (v : GoStr) : Workload :=
  { w with tmplAnnotations := setVal w.tmplAnnotations key v }

/-- Result of one patch-applier call: the returned `(changed, err)` pair, the
in-memory workload after the call, and whether a Patch write was issued. -/
structure ApplyOut where
  changed : Bool
  err : Option StoreErr
  workload : Workload
  wrote : Bool
deriving DecidableEq

/-- `patchDeploymentHash` from the source (`patchDaemonSetHash` and
`patchStatefulSetHash` are textually identical up to the workload type): if
the current annotation already equals the target, return `(false, nil)` with
no write; otherwise set the annotation and issue the diff-based patch,
returning `(true, patch error)`. `patchFn` is the store's Patch operation. -/
def patchDeploymentHash (patchFn : Workload → Option StoreErr) (w : Workload)
    (annotationKey : GoStr) (hash : GoStr) : ApplyOut :=
  if getAnn w annotationKey = hash then ⟨false, none, w, false⟩
  else
    let w2 := setAnn w annotationKey hash
    ⟨true, patchFn w2, w2, true⟩

/-- The per-kind patch loop shared by `patchDeployments`, `patchDaemonSets`
and `patchStatefulSets`: apply the patch to each listed workload in order,
aborting on the first patch error. -/
def patchWorkloadList (kind : WKind) (patchFn : Workload → Option StoreErr)
    (annotationKey : GoStr) (hash : GoStr) :
    List Workload → Option StoreErr × List Event
  | [] => (none, [])
  | w :: rest =>
    let out := patchDeploymentHash patchFn w annotationKey hash
    if out.changed then
      match out.err with
      | some e => (some e, [.patchWorkload kind w.name annotationKey hash])
      | none =>
        let r := patchWorkloadList kind patchFn annotationKey hash rest
        (r.1, .patchWorkload kind w.name annotationKey hash :: r.2)
    else patchWorkloadList kind patchFn annotationKey hash rest

/-- `patchDeployments` from the source: list the namespace's matching
Deployments, then run the patch loop. -/
def patchDeployments (c : Client) (annotationKey : GoStr) (ns : GoStr)
    (hash : GoStr) : Option StoreErr × List Event :=
  match c.listDeployments ns with
  | .error e => (some e, [.listWorkloads .deployment])
  | .ok ds =>
    let out := patchWorkloadList .deployment c.patchDeployment annotationKey hash ds
    (out.1, .listWorkloads .deployment :: out.2)

/-- `patchDaemonSets` from the source. -/
def patchDaemonSets (c : Client) (annotationKey : GoStr) (ns : GoStr)
    (hash : GoStr) : Option StoreErr × List Event :=
  match c.listDaemonSets ns with
  | .error e => (some e, [.listWorkloads .daemonSet])
  | .ok ds =>
    let out := patchWorkloadList .daemonSet c.patchDaemonSet annotationKey hash ds
    (out.1, .listWorkloads .daemonSet :: out.2)

/-- `patchStatefulSets` from the source. -/
def patchStatefulSets (c : Client) (annotationKey : GoStr) (ns : GoStr)
    (hash : GoStr) : Option StoreErr × List Event :=
  match c.listStatefulSets ns with
  | .error e => (some e, [.listWorkloads .statefulSet])
  | .ok ds =>
    let out := patchWorkloadList .statefulSet c.patchStatefulSet annotationKey hash ds
    (out.1, .listWorkloads .statefulSet :: out.2)

/-- `computeCombinedHash` from the source: list ConfigMaps then Secrets of the
namespace and aggregate, propagating the first list error. -/
def computeCombinedHash (hash : GoStr → GoStr) (r : GenCfg) (c : Client)
    (ns : GoStr) : Except StoreErr GoStr × List Event :=
  match c.listConfigMaps ns with
  | .error e => (.error e, [.listConfigMaps])
  | .ok cms =>
    match c.listSecrets ns with
    | .error e => (.error e, [.listConfigMaps, .listSecrets])
    | .ok secs =>
      (.ok (hashConfigSources hash cms secs r.ignoredConfigMapKeys r.ignoredSecretKeys),
        [.listConfigMaps, .listSecrets])

/-- The best-effort existence probes opening `Reconcile`: a hard error on the
ConfigMap get (or, after its not-found, on the Secret get) aborts the pass;
not-found on both is benign. -/
def getPhase (c : Client) (req : NsName) : Option StoreErr :=
  match c.getConfigMap req with
  | .ok _ => none
  | .error e =>
    if e = .notFound then
      match c.getSecret req with
      | .ok _ => none
      | .error e2 => if e2 = .notFound then none else some e2
    else some e

/-- The generalized `Reconcile`: probe the triggering object, compute the
aggregate fingerprint, short-circuit on the empty fingerprint, then patch
Deployments, DaemonSets and StatefulSets in order, aborting on the first
error. Returns the pass outcome and the trace of store operations. -/
def Reconcile (hash : GoStr → GoStr) (r : GenCfg) (c : Client) (req : NsName) :
    Option StoreErr × List Event :=
  match getPhase c req with
  | some e => (some e, [])
  | none =>
    let ch := computeCombinedHash hash r c req.ns
    match ch.1 with
    | .error e => (some e, ch.2)
    | .ok h =>
      if h = [] then (none, ch.2)
      else
        let d := patchDeployments c r.annotationKey req.ns h
        match d.1 with
        | some e => (some e, ch.2 ++ d.2)
        | none =>
          let ds := patchDaemonSets c r.annotationKey req.ns h
          match ds.1 with
          | some e => (some e, ch.2 ++ d.2 ++ ds.2)
          | none =>
            let st := patchStatefulSets c r.annotationKey req.ns h
            (st.1, ch.2 ++ d.2 ++ ds.2 ++ st.2)

/-! ## Simple reconciler variant (controllers/configmap_controller.go) -/

/-- The simple variant's fixed label key `app.kubernetes.io/name`. -/
def synapseLabelKey : GoStr := gs "app.kubernetes.io/name"

/-- The simple variant's fixed label value `synapse`. -/
def synapseLabelValue : GoStr := gs "synapse"

/-- The fixed annotation key `synapse.gen0sec.com/config-hash`, also the
generalized variant's flag default. -/
def configHashAnnotKey : GoStr := gs "synapse.gen0sec.com/config-hash"

/-- The simple variant's `Reconcile`: get the triggering ConfigMap (not-found
is a no-op), skip non-Synapse ConfigMaps, hash it, skip on the empty hash,
then patch the namespace's Synapse Deployments (the in-line loop is the same
logic as `patchDeploymentHash` plus the loop of `patchDeployments`). -/
def ReconcileSimple (hash : GoStr → GoStr) (c : Client) (req : NsName) :
    Option StoreErr × List Event :=
  match c.getConfigMap req with
  | .error e => if e = .notFound then (none, []) else (some e, [])
  | .ok cfg =>
    if (findVal cfg.labels synapseLabelKey).getD [] ≠ synapseLabelValue then (none, [])
    else
      let h := hashConfigMapContentSimple hash cfg
      if h = [] then (none, [])
      else
        match c.listDeployments req.ns with
        | .error e => (some e, [.listWorkloads .deployment])
        | .ok ds =>
          let out := patchWorkloadList .deployment c.patchDeployment configHashAnnotKey h ds
          (out.1, .listWorkloads .deployment :: out.2)

/-! ## A store-backed client (for comparing the two variants) -/

/-- A single-namespace object-store snapshot. -/
structure Store where
  configMaps : List ConfigMap
  secrets : List Secret
  deployments : List Workload
  daemonSets : List Workload
  statefulSets : List Workload

/-- A one-pair label selector (the default selector is
`app.kubernetes.io/name=synapse`, the same predicate the simple variant
hard-codes). -/
def labelMatch (sel : GoStr × GoStr) (labels : List (GoStr × GoStr)) : Bool :=
  decide ((findVal labels sel.1).getD [] = sel.2)

/-- The client a store induces: gets look up by name (not-found otherwise),
lists filter by the selector, patches always succeed. -/
def clientOfStore (st : Store) (sel : GoStr × GoStr) : Client where
  getConfigMap := fun req =>
    match st.configMaps.find? (fun c => decide (c.name = req.name)) with
    | some c => .ok c
    | none => .error .notFound
  getSecret := fun req =>
    match st.secrets.find? (fun s => decide (s.name = req.name)) with
    | some s => .ok s
    | none => .error .notFound
  listConfigMaps := fun _ => .ok (st.configMaps.filter (fun c => labelMatch sel c.labels))
  listSecrets := fun _ => .ok (st.secrets.filter (fun s => labelMatch sel s.labels))
  listDeployments := fun _ => .ok (st.deployments.filter (fun w => labelMatch sel w.labels))
  listDaemonSets := fun _ => .ok (st.daemonSets.filter (fun w => labelMatch sel w.labels))
  listStatefulSets := fun _ => .ok (st.statefulSets.filter (fun w => labelMatch sel w.labels))
  patchDeployment := fun _ => none
  patchDaemonSet := fun _ => none
  patchStatefulSet := fun _ => none

/-- A concrete injective, never-empty digest function used by witnesses and
counterexamples (standing in for the SHA-256 + hex pipeline, which is
injective on digest inputs up to collisions and never yields ""). -/
def hashW (l : GoStr) : GoStr := 1 :: l

/-! ## Concrete inputs used by witnesses and counterexamples -/

/-- A small labelled ConfigMap with one text entry. -/
def wCM : ConfigMap :=
  ⟨gs "app", [(gs "app.kubernetes.io/name", gs "synapse")], [(gs "a", gs "x")], []⟩

/-- A deployment with no pod-template annotations. -/
def wDep : Workload := ⟨gs "d", [(gs "app.kubernetes.io/name", gs "synapse")], []⟩

/-- A client whose DaemonSet list fails after the Deployment phase succeeded. -/
def cexClientC2 : Client where
  getConfigMap := fun _ => .ok wCM
  getSecret := fun _ => .error .notFound
  listConfigMaps := fun _ => .ok [wCM]
  listSecrets := fun _ => .ok []
  listDeployments := fun _ => .ok [wDep]
  listDaemonSets := fun _ => .error (.fault 7)
  listStatefulSets := fun _ => .ok []
  patchDeployment := fun _ => none
  patchDaemonSet := fun _ => none
  patchStatefulSet := fun _ => none

/-- A client whose ConfigMap list fails. -/
def wClientListFail : Client where
  getConfigMap := fun _ => .ok wCM
  getSecret := fun _ => .error .notFound
  listConfigMaps := fun _ => .error (.fault 3)
  listSecrets := fun _ => .ok []
  listDeployments := fun _ => .ok []
  listDaemonSets := fun _ => .ok []
  listStatefulSets := fun _ => .ok []
  patchDeployment := fun _ => none
  patchDaemonSet := fun _ => none
  patchStatefulSet := fun _ => none

/-- A client whose DaemonSet list fails (used against `claim_c8`). -/
def wClientC8 : Client where
  getConfigMap := fun _ => .ok wCM
  getSecret := fun _ => .error .notFound
  listConfigMaps := fun _ => .ok [wCM]
  listSecrets := fun _ => .ok []
  listDeployments := fun _ => .ok [wDep]
  listDaemonSets := fun _ => .error (.fault 9)
  listStatefulSets := fun _ => .ok []
  patchDeployment := fun _ => none
  patchDaemonSet := fun _ => none
  patchStatefulSet := fun _ => none

/-- A client with all reads succeeding and one empty-after-filtering source. -/
def wClientC5 : Client where
  getConfigMap := fun _ => .error .notFound
  getSecret := fun _ => .error .notFound
  listConfigMaps := fun _ => .ok [⟨gs "app", [], [(gs "upstreams.yaml", gs "x")], []⟩]
  listSecrets := fun _ => .ok []
  listDeployments := fun _ => .ok [wDep]
  listDaemonSets := fun _ => .ok []
  listStatefulSets := fun _ => .ok []
  patchDeployment := fun _ => none
  patchDaemonSet := fun _ => none
  patchStatefulSet := fun _ => none

/-- A single-ConfigMap, single-Deployment store (degenerate configuration). -/
def wStore : Store := ⟨[wCM], [], [wDep], [], []⟩

theorem hashW_inj : Function.Injective hashW := by
  intro a b h
  simpa [hashW] using h

theorem hashW_ne_nil (l : GoStr) : hashW l ≠ [] := by simp [hashW]

/-! ## Order facts about the byte order -/

theorem bytesLt_irrefl : ∀ a : GoStr, bytesLt a a = false := by
  intro a
  induction a with
  | nil => rfl
  | cons x xs ih => simp [bytesLt, ih]

theorem bytesLt_asymm : ∀ {a b : GoStr}, bytesLt a b = true → bytesLt b a = false := by
  intro a
  induction a with
  | nil => intro b h; cases b <;> simp_all [bytesLt]
  | cons x xs ih =>
    intro b h
    cases b with
    | nil => simp [bytesLt] at h
    | cons y ys =>
      simp only [bytesLt] at h ⊢
      rcases Nat.lt_trichotomy x y with hlt | heq | hgt
      · simp [hlt, Nat.lt_asymm hlt]
      · subst heq
        simp only [lt_self_iff_false, if_false] at h ⊢
        exact ih h
      · simp [hgt, Nat.lt_asymm hgt] at h

theorem bytesLt_trans : ∀ {a b c : GoStr},
    bytesLt a b = true → bytesLt b c = true → bytesLt a c = true := by
  intro a
  induction a with
  | nil =>
    intro b c hab hbc
    cases b with
    | nil => simp [bytesLt] at hab
    | cons y ys => cases c with
      | nil => simp [bytesLt] at hbc
      | cons z zs => simp [bytesLt]
  | cons x xs ih =>
    intro b c hab hbc
    cases b with
    | nil => simp [bytesLt] at hab
    | cons y ys =>
      cases c with
      | nil => simp [bytesLt] at hbc
      | cons z zs =>
        simp only [bytesLt] at hab hbc ⊢
        rcases Nat.lt_trichotomy x y with hxy | hxy | hxy
        · rcases Nat.lt_trichotomy y z with hyz | hyz | hyz
          · simp [Nat.lt_trans hxy hyz]
          · subst hyz; simp [hxy]
          · simp [hyz, Nat.lt_asymm hyz] at hbc
        · subst hxy
          rcases Nat.lt_trichotomy x z with hxz | hxz | hxz
          · simp [hxz]
          · subst hxz
            simp only [lt_self_iff_false, if_false] at hab hbc ⊢
            exact ih hab hbc
          · simp [hxz, Nat.lt_asymm hxz] at hbc
        · simp [hxy, Nat.lt_asymm hxy] at hab

theorem bytesLt_connex : ∀ {a b : GoStr},
    bytesLt a b = false → bytesLt b a = false → a = b := by
  intro a
  induction a with
  | nil => intro b hab _; cases b with
    | nil => rfl
    | cons y ys => simp [bytesLt] at hab
  | cons x xs ih =>
    intro b hab hba
    cases b with
    | nil => simp [bytesLt] at hba
    | cons y ys =>
      simp only [bytesLt] at hab hba
      rcases Nat.lt_trichotomy x y with hxy | hxy | hxy
      · simp [hxy] at hab
      · subst hxy
        simp only [lt_self_iff_false, if_false] at hab hba
        rw [ih hab hba]
      · simp [hxy] at hba

theorem bytesLe_total (a b : GoStr) : bytesLe a b = true ∨ bytesLe b a = true := by
  unfold bytesLe
  by_cases h : bytesLt b a = true
  · right; simp [bytesLt_asymm h]
  · left; simp at h; simp [h]

theorem bytesLe_trans {a b c : GoStr} (hab : bytesLe a b = true)
    (hbc : bytesLe b c = true) : bytesLe a c = true := by
  unfold bytesLe at *
  simp only [Bool.not_eq_true'] at hab hbc ⊢
  by_cases hca : bytesLt c a = true
  · by_cases hbc2 : bytesLt b c = true
    · have := bytesLt_trans hbc2 hca
      simp_all
    · simp only [Bool.not_eq_true] at hbc2
      have : b = c := bytesLt_connex hbc2 hbc
      subst this
      simp_all
  · simp_all

theorem bytesLe_antisymm {a b : GoStr} (hab : bytesLe a b = true)
    (hba : bytesLe b a = true) : a = b := by
  unfold bytesLe at hab hba
  simp only [Bool.not_eq_true'] at hab hba
  exact bytesLt_connex hba hab

theorem bytesLt_of_le_of_ne {a b : GoStr} (hle : bytesLe a b = true)
    (hne : a ≠ b) : bytesLt a b = true := by
  unfold bytesLe at hle
  simp only [Bool.not_eq_true'] at hle
  by_cases h : bytesLt a b = true
  · exact h
  · simp at h
    exact absurd (bytesLt_connex h hle) hne

/-! ## Helper lemmas about lookups and updates -/

theorem findVal_setVal_self {α : Type} (l : List (GoStr × α)) (k : GoStr) (v : α) :
    findVal (setVal l k v) k = some v := by
  induction l with
  | nil => simp [setVal, findVal]
  | cons p rest ih =>
    by_cases h : p.1 = k
    · simp [setVal, h, findVal]
    · simp [setVal, h, findVal, ih]

theorem getAnn_setAnn (w : Workload) (key v : GoStr) :
    getAnn (setAnn w key v) key = v := by
  simp [getAnn, setAnn, findVal_setVal_self]

theorem mem_keys_of_findVal {α : Type} {l : List (GoStr × α)} {k : GoStr} {v : α}
    (h : findVal l k = some v) : k ∈ l.map Prod.fst := by
  induction l with
  | nil => simp [findVal] at h
  | cons p rest ih =>
    by_cases hp : p.1 = k
    · simp [hp]
    · simp only [findVal, hp, if_false] at h
      simp [ih h]

theorem findVal_filter {α : Type} (p : GoStr → Bool) (l : List (GoStr × α))
    (k : GoStr) (hk : p k = true) :
    findVal (l.filter (fun q => p q.1)) k = findVal l k := by
  induction l with
  | nil => rfl
  | cons q rest ih =>
    by_cases hq : q.1 = k
    · have : p q.1 = true := hq ▸ hk
      simp [List.filter_cons, this, hk, findVal, hq, ih]
    · by_cases hpq : p q.1 = true
      · simp [List.filter_cons, hpq, findVal, hq, ih]
      · simp only [Bool.not_eq_true] at hpq
        simp [List.filter_cons, hpq, findVal, hq, ih]

theorem shouldIgnoreKey_eq (k : GoStr) (igns : List GoStr) :
    shouldIgnoreKey k igns = decide (k ∈ igns) := by
  cases igns with
  | nil => simp [shouldIgnoreKey]
  | cons a rest => simp [shouldIgnoreKey]

theorem keysFilter_eq {α : Type} (p : GoStr → Bool) (l : List (GoStr × α)) :
    (l.map Prod.fst).filter p = (l.filter (fun q => p q.1)).map Prod.fst := by
  induction l with
  | nil => rfl
  | cons q rest ih =>
    by_cases h : p q.1 = true
    · simp [List.filter_cons, h, ih]
    · simp only [Bool.not_eq_true] at h
      simp [List.filter_cons, h, ih]

theorem cmKeys_eq_nil_of_empty (cfg : ConfigMap) (excl : List GoStr)
    (h : cfg.data = [] ∧ cfg.binaryData = []) : cmKeys cfg excl = [] := by
  simp [cmKeys, h.1, h.2]

theorem hashCMC_eq_nil_of_keys (hash : GoStr → GoStr) (cfg : ConfigMap)
    (excl : List GoStr) (h : cmKeys cfg excl = []) :
    hashConfigMapContent hash cfg excl = [] := by
  unfold hashConfigMapContent
  by_cases h0 : cfg.data = [] ∧ cfg.binaryData = [] <;> simp [h0, h]

theorem taggedBlock_s_cons (cfg : ConfigMap) (c : Nat) (rest : GoStr) :
    taggedBlock cfg (gs "s:" ++ (c :: rest))
      = 115 :: (c :: rest) ++ 0 :: (findVal cfg.data (c :: rest)).getD [] ++ [0] := rfl

theorem taggedBlock_b_cons (cfg : ConfigMap) (c : Nat) (rest : GoStr) :
    taggedBlock cfg (gs "b:" ++ (c :: rest))
      = 98 :: (c :: rest) ++ 0 :: (findVal cfg.binaryData (c :: rest)).getD [] ++ [0] := rfl

/-- Flattening is injective on block lists with equal pointwise lengths. -/
theorem flatten_inj_of_length : ∀ (l₁ l₂ : List GoStr),
    l₁.map List.length = l₂.map List.length → l₁.flatten = l₂.flatten → l₁ = l₂ := by
  intro l₁
  induction l₁ with
  | nil => intro l₂ hlen _; cases l₂ <;> simp_all
  | cons b₁ r₁ ih =>
    intro l₂ hlen hflat
    cases l₂ with
    | nil => simp at hlen
    | cons b₂ r₂ =>
      simp only [List.map_cons, List.cons.injEq] at hlen
      simp only [List.flatten_cons] at hflat
      obtain ⟨hb, hr⟩ := List.append_inj hflat hlen.1
      rw [hb, ih r₂ hlen.2 hr]

/-- Content equality after exclusion filtering determines the fingerprint. -/
theorem hashConfigMapContent_congr (hash : GoStr → GoStr) (cfg₁ cfg₂ : ConfigMap)
    (excl : List GoStr)
    (hd : cfg₁.data.filter (fun q => !shouldIgnoreKey q.1 excl)
        = cfg₂.data.filter (fun q => !shouldIgnoreKey q.1 excl))
    (hb : cfg₁.binaryData.filter (fun q => !shouldIgnoreKey q.1 excl)
        = cfg₂.binaryData.filter (fun q => !shouldIgnoreKey q.1 excl)) :
    hashConfigMapContent hash cfg₁ excl = hashConfigMapContent hash cfg₂ excl := by
  have hkeys : cmKeys cfg₁ excl = cmKeys cfg₂ excl := by
    unfold cmKeys
    rw [keysFilter_eq, keysFilter_eq, keysFilter_eq, keysFilter_eq, hd, hb]
  by_cases hk : cmKeys cfg₁ excl = []
  · rw [hashCMC_eq_nil_of_keys hash cfg₁ excl hk,
      hashCMC_eq_nil_of_keys hash cfg₂ excl (hkeys ▸ hk)]
  · have h1 : ¬(cfg₁.data = [] ∧ cfg₁.binaryData = []) := by
      intro h0; exact hk (cmKeys_eq_nil_of_empty cfg₁ excl h0)
    have h2 : ¬(cfg₂.data = [] ∧ cfg₂.binaryData = []) := by
      intro h0; exact (hkeys ▸ hk) (cmKeys_eq_nil_of_empty cfg₂ excl h0)
    have hblocks : ∀ tk ∈ List.insertionSort keyLe (cmKeys cfg₁ excl),
        taggedBlock cfg₁ tk = taggedBlock cfg₂ tk := by
      intro tk htk
      have htk2 : tk ∈ cmKeys cfg₁ excl :=
        ((List.perm_insertionSort keyLe (cmKeys cfg₁ excl)).mem_iff).mp htk
      unfold cmKeys at htk2
      rcases List.mem_append.mp htk2 with hmem | hmem
      · obtain ⟨k, hkmem, rfl⟩ := List.mem_map.mp hmem
        have hkp : shouldIgnoreKey k excl = false := by
          have := (List.mem_filter.mp hkmem).2
          simpa using this
        cases k with
        | nil => rfl
        | cons c rest =>
          rw [taggedBlock_s_cons, taggedBlock_s_cons]
          have hv : findVal cfg₁.data (c :: rest) = findVal cfg₂.data (c :: rest) := by
            rw [← findVal_filter (fun x => !shouldIgnoreKey x excl) cfg₁.data (c :: rest)
                (by simp [hkp]),
              ← findVal_filter (fun x => !shouldIgnoreKey x excl) cfg₂.data (c :: rest)
                (by simp [hkp]), hd]
          rw [hv]
      · obtain ⟨k, hkmem, rfl⟩ := List.mem_map.mp hmem
        have hkp : shouldIgnoreKey k excl = false := by
          have := (List.mem_filter.mp hkmem).2
          simpa using this
        cases k with
        | nil => rfl
        | cons c rest =>
          rw [taggedBlock_b_cons, taggedBlock_b_cons]
          have hv : findVal cfg₁.binaryData (c :: rest) = findVal cfg₂.binaryData (c :: rest) := by
            rw [← findVal_filter (fun x => !shouldIgnoreKey x excl) cfg₁.binaryData (c :: rest)
                (by simp [hkp]),
              ← findVal_filter (fun x => !shouldIgnoreKey x excl) cfg₂.binaryData (c :: rest)
                (by simp [hkp]), hb]
          rw [hv]
    have hmap : (List.insertionSort keyLe (cmKeys cfg₁ excl)).map (taggedBlock cfg₁)
        = (List.insertionSort keyLe (cmKeys cfg₁ excl)).map (taggedBlock cfg₂) :=
      List.map_congr_left hblocks
    unfold hashConfigMapContent
    rw [if_neg h1, if_neg h2, if_neg hk, if_neg (hkeys ▸ hk), hmap, hkeys]

theorem filter_setVal_excluded {α : Type} (l : List (GoStr × α)) (k : GoStr) (v : α)
    (excl : List GoStr) (hk : shouldIgnoreKey k excl = true) :
    (setVal l k v).filter (fun q => !shouldIgnoreKey q.1 excl)
      = l.filter (fun q => !shouldIgnoreKey q.1 excl) := by
  induction l with
  | nil => simp [setVal, List.filter_cons, hk]
  | cons p rest ih =>
    by_cases hp : p.1 = k
    · have hk2 : shouldIgnoreKey p.1 excl = true := by rw [hp]; exact hk
      simp [setVal, hp, List.filter_cons, hk, hk2]
    · simp only [setVal, hp, if_false, List.filter_cons]
      rw [ih]

theorem filter_eraseKey_excluded {α : Type} (l : List (GoStr × α)) (k : GoStr)
    (excl : List GoStr) (hk : shouldIgnoreKey k excl = true) :
    (eraseKey l k).filter (fun q => !shouldIgnoreKey q.1 excl)
      = l.filter (fun q => !shouldIgnoreKey q.1 excl) := by
  unfold eraseKey
  rw [List.filter_filter]
  apply List.filter_congr
  intro q _
  by_cases hqk : q.1 = k
  · have hk2 : shouldIgnoreKey q.1 excl = true := by rw [hqk]; exact hk
    simp [hk2]
  · simp [hqk]

/-- A source with an empty fingerprint is dropped from the aggregate. -/
theorem hashConfigSources_drop_cm (hash : GoStr → GoStr) (cfg : ConfigMap)
    (cms : List ConfigMap) (secs : List Secret) (ic is2 : List GoStr)
    (h : hashConfigMapContent hash cfg ic = []) :
    hashConfigSources hash (cfg :: cms) secs ic is2
      = hashConfigSources hash cms secs ic is2 := by
  unfold hashConfigSources sourceEntries
  simp [List.filterMap_cons, h]

/-! ## Claims -/

theorem head_configmapAgg (x y : GoStr) : ((gs "configmap/" ++ x) ++ y).head? = some 99 := rfl

theorem head_secretAgg (x y : GoStr) : ((gs "secret/" ++ x) ++ y).head? = some 115 := rfl

theorem head_configmapAgg3 (x y z : GoStr) :
    ((gs "configmap/" ++ x) ++ y ++ z).head? = some 99 := rfl

theorem head_secretAgg3 (x y z : GoStr) :
    ((gs "secret/" ++ x) ++ y ++ z).head? = some 115 := rfl

/-- The keys of a filterMap whose productions determine the key are a sublist
of the mapped inputs. -/
theorem filterMap_keys_sublist {α : Type} (f : α → Option SourceEntry) (g : α → GoStr)
    (hf : ∀ a e, f a = some e → e.1 = g a) :
    ∀ l : List α, ((l.filterMap f).map Prod.fst).Sublist (l.map g) := by
  intro l
  induction l with
  | nil => simp
  | cons a rest ih =>
    cases hfa : f a with
    | none =>
      simp only [List.filterMap_cons, hfa, List.map_cons]
      exact ih.cons _
    | some e =>
      simp only [List.filterMap_cons, hfa, List.map_cons]
      rw [hf a e hfa]
      exact ih.cons₂ _

/-- Canonical identities of the aggregate entries are pairwise distinct when
source names are unique within each kind: the two kinds cannot collide thanks
to the distinct identity prefixes. -/
theorem sourceEntries_keys_nodup (hash : GoStr → GoStr) (cms : List ConfigMap)
    (secs : List Secret) (ic is2 : List GoStr)
    (hc : (cms.map ConfigMap.name).Nodup) (hs : (secs.map Secret.name).Nodup) :
    ((sourceEntries hash cms secs ic is2).map Prod.fst).Nodup := by
  unfold sourceEntries
  rw [List.map_append]
  have hsubc := filterMap_keys_sublist
    (fun cfg =>
      let h := hashConfigMapContent hash cfg ic
      if h = [] then none else some (gs "configmap/" ++ cfg.name, h))
    (fun cfg => gs "configmap/" ++ cfg.name)
    (by
      intro a e hfa
      by_cases h : hashConfigMapContent hash a ic = []
      · simp [h] at hfa
      · simp only [if_neg h, Option.some.injEq] at hfa
        rw [← hfa]) cms
  have hsubs := filterMap_keys_sublist
    (fun secret =>
      let h := hashSecretContent hash secret is2
      if h = [] then none else some (gs "secret/" ++ secret.name, h))
    (fun secret => gs "secret/" ++ secret.name)
    (by
      intro a e hfa
      by_cases h : hashSecretContent hash a is2 = []
      · simp [h] at hfa
      · simp only [if_neg h, Option.some.injEq] at hfa
        rw [← hfa]) secs
  have hndc : (cms.map (fun cfg => gs "configmap/" ++ cfg.name)).Nodup := by
    rw [show (fun cfg => gs "configmap/" ++ cfg.name)
        = (fun x => gs "configmap/" ++ x) ∘ ConfigMap.name from rfl, ← List.map_map]
    exact hc.map (fun a b h => List.append_cancel_left h)
  have hnds : (secs.map (fun secret => gs "secret/" ++ secret.name)).Nodup := by
    rw [show (fun secret => gs "secret/" ++ secret.name)
        = (fun x => gs "secret/" ++ x) ∘ Secret.name from rfl, ← List.map_map]
    exact hs.map (fun a b h => List.append_cancel_left h)
  refine (hsubc.nodup hndc).append (hsubs.nodup hnds) ?_
  intro a hac has
  have h1 := hsubc.subset hac
  have h2 := hsubs.subset has
  obtain ⟨c1, _, rfl⟩ := List.mem_map.mp h1
  obtain ⟨s1, _, heq⟩ := List.mem_map.mp h2
  have h3 : ((gs "secret/" ++ s1.name) ++ []).head? = ((gs "configmap/" ++ c1.name) ++ []).head? := by
    rw [List.append_nil, List.append_nil, heq]
  rw [head_configmapAgg, head_secretAgg] at h3
  exact absurd h3 (by decide)

/-- Sorting by canonical identity is a canonical form: two permuted entry
lists with pairwise-distinct identities sort to the same list. -/
theorem insertionSort_eq_of_perm_nodupkeys {l₁ l₂ : List SourceEntry}
    (hp : l₁.Perm l₂) (hnd : (l₁.map Prod.fst).Nodup) :
    List.insertionSort entryKeyLe l₁ = List.insertionSort entryKeyLe l₂ := by
  haveI : IsTotal SourceEntry entryKeyLe := ⟨fun a b => bytesLe_total a.1 b.1⟩
  haveI : IsTrans SourceEntry entryKeyLe := ⟨fun _ _ _ => bytesLe_trans⟩
  haveI : IsAntisymm SourceEntry (fun a b => bytesLt a.1 b.1 = true) :=
    ⟨fun a b h₁ h₂ => absurd h₂ (by simp [bytesLt_asymm h₁])⟩
  have p₁ := List.perm_insertionSort entryKeyLe l₁
  have p₂ := List.perm_insertionSort entryKeyLe l₂
  have hperm := p₁.trans (hp.trans p₂.symm)
  have s₁ := List.sorted_insertionSort entryKeyLe l₁
  have s₂ := List.sorted_insertionSort entryKeyLe l₂
  have nd₁ : ((List.insertionSort entryKeyLe l₁).map Prod.fst).Nodup :=
    ((p₁.map Prod.fst).nodup_iff).mpr hnd
  have nd₂ : ((List.insertionSort entryKeyLe l₂).map Prod.fst).Nodup :=
    ((p₂.map Prod.fst).nodup_iff).mpr (((hp.map Prod.fst).nodup_iff).mp hnd)
  have st₁ : List.Sorted (fun a b : SourceEntry => bytesLt a.1 b.1 = true)
      (List.insertionSort entryKeyLe l₁) :=
    (s₁.and (List.pairwise_map.mp nd₁)).imp (fun h => bytesLt_of_le_of_ne h.1 h.2)
  have st₂ : List.Sorted (fun a b : SourceEntry => bytesLt a.1 b.1 = true)
      (List.insertionSort entryKeyLe l₂) :=
    (s₂.and (List.pairwise_map.mp nd₂)).imp (fun h => bytesLt_of_le_of_ne h.1 h.2)
  exact List.eq_of_perm_of_sorted hperm st₁ st₂

/-- The aggregate over a single contributing ConfigMap. -/
theorem hashConfigSources_single_cm (hash : GoStr → GoStr) (cm : ConfigMap)
    (ic is2 : List GoStr) (hc : hashConfigMapContent hash cm ic ≠ []) :
    hashConfigSources hash [cm] [] ic is2
      = hash ((gs "configmap/" ++ cm.name) ++ 0 :: hashConfigMapContent hash cm ic ++ [0]) := by
  unfold hashConfigSources sourceEntries
  simp [hc, List.insertionSort, List.orderedInsert, aggregateBlock]

/-- The aggregate over a single contributing Secret. -/
theorem hashConfigSources_single_secret (hash : GoStr → GoStr) (s : Secret)
    (ic is2 : List GoStr) (hs : hashSecretContent hash s is2 ≠ []) :
    hashConfigSources hash [] [s] ic is2
      = hash ((gs "secret/" ++ s.name) ++ 0 :: hashSecretContent hash s is2 ++ [0]) := by
  unfold hashConfigSources sourceEntries
  simp [hs, List.insertionSort, List.orderedInsert, aggregateBlock]

/-- Claim C10: for every key, shouldIgnoreKey returns false when the exclusion
set is empty or nil (the Go nil map and empty map both have length zero, both
modelled by the empty list), and returns true exactly when the key is a member
of the exclusion set; the embedding is a pure function, so it has no side
effects. -/
theorem claim_c10 (key : GoStr) (igns : List GoStr) :
    shouldIgnoreKey key [] = false
      ∧ (shouldIgnoreKey key igns = true ↔ key ∈ igns) := by
  constructor
  · rfl
  · rw [shouldIgnoreKey_eq]
    simp

/-- Claim C4: the patch applier is idempotent: a successful apply with
changed=true leaves a workload on which a second apply of the same fingerprint
returns (false, nil) and issues no write; and whenever the workload's
pod-template annotation already equals the target fingerprint, apply returns
(false, nil) and issues no write. -/
theorem claim_c4 (patchFn : Workload → Option StoreErr) (w : Workload)
    (annotationKey targetFingerprint : GoStr) :
    ((patchDeploymentHash patchFn w annotationKey targetFingerprint).changed = true →
      (patchDeploymentHash patchFn w annotationKey targetFingerprint).err = none →
      patchDeploymentHash patchFn
          (patchDeploymentHash patchFn w annotationKey targetFingerprint).workload
          annotationKey targetFingerprint
        = ⟨false, none,
            (patchDeploymentHash patchFn w annotationKey targetFingerprint).workload, false⟩)
    ∧ (getAnn w annotationKey = targetFingerprint →
        patchDeploymentHash patchFn w annotationKey targetFingerprint
          = ⟨false, none, w, false⟩) := by
  constructor
  · intro hch _
    by_cases h : getAnn w annotationKey = targetFingerprint
    · simp [patchDeploymentHash, h] at hch
    · have hw : (patchDeploymentHash patchFn w annotationKey targetFingerprint).workload
          = setAnn w annotationKey targetFingerprint := by
        simp [patchDeploymentHash, h]
      rw [hw]
      simp [patchDeploymentHash, getAnn_setAnn]
  · intro h
    simp [patchDeploymentHash, h]

/-- Witness for claim C4 at a concrete workload, key and fingerprint. -/
theorem claim_c4_witness :
    patchDeploymentHash (fun _ => none)
        ((patchDeploymentHash (fun _ => none) wDep (gs "k") [5]).workload) (gs "k") [5]
      = ⟨false, none, (patchDeploymentHash (fun _ => none) wDep (gs "k") [5]).workload, false⟩ :=
  (claim_c4 (fun _ => none) wDep (gs "k") [5]).1 (by decide) (by decide)

/-- Changing the value at a surviving nonempty text-entry key (same length,
different bytes) changes the fingerprint, for any injective digest. -/
theorem hashCMC_value_sensitive_data (hash : GoStr → GoStr) (hinj : Function.Injective hash)
    (nm : GoStr) (lb : List (GoStr × GoStr)) (data₁ data₂ bin : List (GoStr × GoStr))
    (excl : List GoStr) (k v₁ v₂ : GoStr)
    (hkne : k ≠ [])
    (hexcl : shouldIgnoreKey k excl = false)
    (hkeys : data₁.map Prod.fst = data₂.map Prod.fst)
    (h₁ : findVal data₁ k = some v₁)
    (h₂ : findVal data₂ k = some v₂)
    (hoth : ∀ k2, k2 ≠ k → findVal data₁ k2 = findVal data₂ k2)
    (hlen : v₁.length = v₂.length)
    (hne : v₁ ≠ v₂) :
    hashConfigMapContent hash ⟨nm, lb, data₁, bin⟩ excl
      ≠ hashConfigMapContent hash ⟨nm, lb, data₂, bin⟩ excl := by
  obtain ⟨c, rest, rfl⟩ := List.exists_cons_of_ne_nil hkne
  have hK : cmKeys ⟨nm, lb, data₁, bin⟩ excl = cmKeys ⟨nm, lb, data₂, bin⟩ excl := by
    simp only [cmKeys]
    rw [hkeys]
  have hkmem : (c :: rest) ∈ (data₁.map Prod.fst).filter (fun x => !shouldIgnoreKey x excl) :=
    List.mem_filter.mpr ⟨mem_keys_of_findVal h₁, by simp [hexcl]⟩
  have htk₀ : (gs "s:" ++ (c :: rest)) ∈ cmKeys ⟨nm, lb, data₁, bin⟩ excl := by
    unfold cmKeys
    exact List.mem_append.mpr (Or.inl (List.mem_map.mpr ⟨c :: rest, hkmem, rfl⟩))
  have hd1 : ¬(data₁ = [] ∧ bin = []) := by
    rintro ⟨h0, -⟩
    rw [h0] at h₁
    simp [findVal] at h₁
  have hd2 : ¬(data₂ = [] ∧ bin = []) := by
    rintro ⟨h0, -⟩
    rw [h0] at h₂
    simp [findVal] at h₂
  have hK1 : cmKeys ⟨nm, lb, data₁, bin⟩ excl ≠ [] := by
    intro h0
    rw [h0] at htk₀
    simp at htk₀
  unfold hashConfigMapContent
  rw [if_neg hd1, if_neg hd2, if_neg hK1, if_neg (hK ▸ hK1), ← hK]
  intro heq
  have hstream := hinj heq
  have hblen : ∀ tk ∈ List.insertionSort keyLe (cmKeys ⟨nm, lb, data₁, bin⟩ excl),
      (taggedBlock ⟨nm, lb, data₁, bin⟩ tk).length
        = (taggedBlock ⟨nm, lb, data₂, bin⟩ tk).length := by
    intro tk htk
    have htk2 : tk ∈ cmKeys ⟨nm, lb, data₁, bin⟩ excl :=
      ((List.perm_insertionSort keyLe _).mem_iff).mp htk
    unfold cmKeys at htk2
    rcases List.mem_append.mp htk2 with hmem | hmem
    · obtain ⟨k2, _, rfl⟩ := List.mem_map.mp hmem
      cases k2 with
      | nil => rfl
      | cons c2 rest2 =>
        rw [taggedBlock_s_cons, taggedBlock_s_cons]
        by_cases hk2 : (c2 :: rest2) = c :: rest
        · rw [hk2]
          simp [h₁, h₂, hlen]
        · rw [show findVal (⟨nm, lb, data₁, bin⟩ : ConfigMap).data (c2 :: rest2)
              = findVal (⟨nm, lb, data₂, bin⟩ : ConfigMap).data (c2 :: rest2) from hoth _ hk2]
    · obtain ⟨k2, _, rfl⟩ := List.mem_map.mp hmem
      cases k2 with
      | nil => rfl
      | cons c2 rest2 => rfl
  have hmaps := flatten_inj_of_length
    ((List.insertionSort keyLe (cmKeys ⟨nm, lb, data₁, bin⟩ excl)).map
      (taggedBlock ⟨nm, lb, data₁, bin⟩))
    ((List.insertionSort keyLe (cmKeys ⟨nm, lb, data₁, bin⟩ excl)).map
      (taggedBlock ⟨nm, lb, data₂, bin⟩))
    (by rw [List.map_map, List.map_map]; exact List.map_congr_left hblen) hstream
  have hb0 := List.map_eq_map_iff.mp hmaps (gs "s:" ++ (c :: rest))
    (((List.perm_insertionSort keyLe _).mem_iff).mpr htk₀)
  rw [taggedBlock_s_cons, taggedBlock_s_cons] at hb0
  rw [show findVal (⟨nm, lb, data₁, bin⟩ : ConfigMap).data (c :: rest) = some v₁ from h₁,
    show findVal (⟨nm, lb, data₂, bin⟩ : ConfigMap).data (c :: rest) = some v₂ from h₂] at hb0
  have hb0' : (115 :: ((c :: rest) ++ [0])) ++ (v₁ ++ [0])
      = (115 :: ((c :: rest) ++ [0])) ++ (v₂ ++ [0]) := by
    simpa [List.append_assoc] using hb0
  exact hne (List.append_inj (List.append_cancel_left hb0') hlen).1

/-- Changing the value at a surviving nonempty binary-entry key (same length,
different bytes) changes the fingerprint, for any injective digest. -/
theorem hashCMC_value_sensitive_bin (hash : GoStr → GoStr) (hinj : Function.Injective hash)
    (nm : GoStr) (lb : List (GoStr × GoStr)) (data bin₁ bin₂ : List (GoStr × GoStr))
    (excl : List GoStr) (k v₁ v₂ : GoStr)
    (hkne : k ≠ [])
    (hexcl : shouldIgnoreKey k excl = false)
    (hkeys : bin₁.map Prod.fst = bin₂.map Prod.fst)
    (h₁ : findVal bin₁ k = some v₁)
    (h₂ : findVal bin₂ k = some v₂)
    (hoth : ∀ k2, k2 ≠ k → findVal bin₁ k2 = findVal bin₂ k2)
    (hlen : v₁.length = v₂.length)
    (hne : v₁ ≠ v₂) :
    hashConfigMapContent hash ⟨nm, lb, data, bin₁⟩ excl
      ≠ hashConfigMapContent hash ⟨nm, lb, data, bin₂⟩ excl := by
  obtain ⟨c, rest, rfl⟩ := List.exists_cons_of_ne_nil hkne
  have hK : cmKeys ⟨nm, lb, data, bin₁⟩ excl = cmKeys ⟨nm, lb, data, bin₂⟩ excl := by
    simp only [cmKeys]
    rw [hkeys]
  have hkmem : (c :: rest) ∈ (bin₁.map Prod.fst).filter (fun x => !shouldIgnoreKey x excl) :=
    List.mem_filter.mpr ⟨mem_keys_of_findVal h₁, by simp [hexcl]⟩
  have htk₀ : (gs "b:" ++ (c :: rest)) ∈ cmKeys ⟨nm, lb, data, bin₁⟩ excl := by
    unfold cmKeys
    exact List.mem_append.mpr (Or.inr (List.mem_map.mpr ⟨c :: rest, hkmem, rfl⟩))
  have hd1 : ¬(data = [] ∧ bin₁ = []) := by
    rintro ⟨-, h0⟩
    rw [h0] at h₁
    simp [findVal] at h₁
  have hd2 : ¬(data = [] ∧ bin₂ = []) := by
    rintro ⟨-, h0⟩
    rw [h0] at h₂
    simp [findVal] at h₂
  have hK1 : cmKeys ⟨nm, lb, data, bin₁⟩ excl ≠ [] := by
    intro h0
    rw [h0] at htk₀
    simp at htk₀
  unfold hashConfigMapContent
  rw [if_neg hd1, if_neg hd2, if_neg hK1, if_neg (hK ▸ hK1), ← hK]
  intro heq
  have hstream := hinj heq
  have hblen : ∀ tk ∈ List.insertionSort keyLe (cmKeys ⟨nm, lb, data, bin₁⟩ excl),
      (taggedBlock ⟨nm, lb, data, bin₁⟩ tk).length
        = (taggedBlock ⟨nm, lb, data, bin₂⟩ tk).length := by
    intro tk htk
    have htk2 : tk ∈ cmKeys ⟨nm, lb, data, bin₁⟩ excl :=
      ((List.perm_insertionSort keyLe _).mem_iff).mp htk
    unfold cmKeys at htk2
    rcases List.mem_append.mp htk2 with hmem | hmem
    · obtain ⟨k2, _, rfl⟩ := List.mem_map.mp hmem
      cases k2 with
      | nil => rfl
      | cons c2 rest2 => rfl
    · obtain ⟨k2, _, rfl⟩ := List.mem_map.mp hmem
      cases k2 with
      | nil => rfl
      | cons c2 rest2 =>
        rw [taggedBlock_b_cons, taggedBlock_b_cons]
        by_cases hk2 : (c2 :: rest2) = c :: rest
        · rw [hk2]
          simp [h₁, h₂, hlen]
        · rw [show findVal (⟨nm, lb, data, bin₁⟩ : ConfigMap).binaryData (c2 :: rest2)
              = findVal (⟨nm, lb, data, bin₂⟩ : ConfigMap).binaryData (c2 :: rest2) from
              hoth _ hk2]
  have hmaps := flatten_inj_of_length
    ((List.insertionSort keyLe (cmKeys ⟨nm, lb, data, bin₁⟩ excl)).map
      (taggedBlock ⟨nm, lb, data, bin₁⟩))
    ((List.insertionSort keyLe (cmKeys ⟨nm, lb, data, bin₁⟩ excl)).map
      (taggedBlock ⟨nm, lb, data, bin₂⟩))
    (by rw [List.map_map, List.map_map]; exact List.map_congr_left hblen) hstream
  have hb0 := List.map_eq_map_iff.mp hmaps (gs "b:" ++ (c :: rest))
    (((List.perm_insertionSort keyLe _).mem_iff).mpr htk₀)
  rw [taggedBlock_b_cons, taggedBlock_b_cons] at hb0
  rw [show findVal (⟨nm, lb, data, bin₁⟩ : ConfigMap).binaryData (c :: rest) = some v₁ from h₁,
    show findVal (⟨nm, lb, data, bin₂⟩ : ConfigMap).binaryData (c :: rest) = some v₂ from h₂]
    at hb0
  have hb0' : (98 :: ((c :: rest) ++ [0])) ++ (v₁ ++ [0])
      = (98 :: ((c :: rest) ++ [0])) ++ (v₂ ++ [0]) := by
    simpa [List.append_assoc] using hb0
  exact hne (List.append_inj (List.append_cancel_left hb0') hlen).1

/-- Claim C1 (amended): for any injective digest, any same-length value change
(in particular any single-byte mutation) at a non-excluded, nonempty entry key
of either entry map changes hashConfigMapContent's fingerprint. The original
claim's "including the empty-string key" part is false on the code (see the
counterexample): the hashing loop guards each case with a byte length strictly
greater than two for the tagged key, so an empty key's value bytes are never
fed to the digest. -/
theorem claim_c1_amended (hash : GoStr → GoStr) (hinj : Function.Injective hash)
    (nm : GoStr) (lb : List (GoStr × GoStr)) (excl : List GoStr) (k v₁ v₂ : GoStr)
    (hkne : k ≠ [])
    (hexcl : shouldIgnoreKey k excl = false)
    (hlen : v₁.length = v₂.length)
    (hne : v₁ ≠ v₂) :
    (∀ data₁ data₂ bin, data₁.map Prod.fst = data₂.map Prod.fst →
      findVal data₁ k = some v₁ → findVal data₂ k = some v₂ →
      (∀ k2, k2 ≠ k → findVal data₁ k2 = findVal data₂ k2) →
      hashConfigMapContent hash ⟨nm, lb, data₁, bin⟩ excl
        ≠ hashConfigMapContent hash ⟨nm, lb, data₂, bin⟩ excl)
    ∧ (∀ data bin₁ bin₂, bin₁.map Prod.fst = bin₂.map Prod.fst →
        findVal bin₁ k = some v₁ → findVal bin₂ k = some v₂ →
        (∀ k2, k2 ≠ k → findVal bin₁ k2 = findVal bin₂ k2) →
        hashConfigMapContent hash ⟨nm, lb, data, bin₁⟩ excl
          ≠ hashConfigMapContent hash ⟨nm, lb, data, bin₂⟩ excl) :=
  ⟨fun data₁ data₂ bin hkeys h₁ h₂ hoth =>
      hashCMC_value_sensitive_data hash hinj nm lb data₁ data₂ bin excl k v₁ v₂
        hkne hexcl hkeys h₁ h₂ hoth hlen hne,
    fun data bin₁ bin₂ hkeys h₁ h₂ hoth =>
      hashCMC_value_sensitive_bin hash hinj nm lb data bin₁ bin₂ excl k v₁ v₂
        hkne hexcl hkeys h₁ h₂ hoth hlen hne⟩

/-- Counterexample to claim C1 as stated: at the empty-string entry key, a
single-byte value mutation ("a" to "b") does not change the fingerprint, even
though the digest is injective and the key is not excluded: the two sources
hash to the same fingerprint because the empty key's value is never written to
the hasher. -/
theorem claim_c1_counterexample :
    Function.Injective hashW
    ∧ shouldIgnoreKey [] [] = false
    ∧ gs "a" ≠ gs "b"
    ∧ hashConfigMapContent hashW ⟨gs "app", [], [([], gs "a")], []⟩ []
      = hashConfigMapContent hashW ⟨gs "app", [], [([], gs "b")], []⟩ [] :=
  ⟨hashW_inj, rfl, by decide, by decide⟩

/-- Witness for claim C1 (amended) at a concrete source: changing the value of
entry "a" from "x" to "y" changes the fingerprint. -/
theorem claim_c1_amended_witness :
    hashConfigMapContent hashW ⟨gs "app", [], [(gs "a", gs "x")], []⟩ []
      ≠ hashConfigMapContent hashW ⟨gs "app", [], [(gs "a", gs "y")], []⟩ [] :=
  (claim_c1_amended hashW hashW_inj (gs "app") [] [] (gs "a") (gs "x") (gs "y")
      (by decide) (by decide) (by decide) (by decide)).1
    [(gs "a", gs "x")] [(gs "a", gs "y")] [] (by decide) (by decide) (by decide)
    (fun k2 hk2 => by
      simp only [findVal]
      rw [if_neg (fun h => hk2 h.symm), if_neg (fun h => hk2 h.symm)])

/-- Claim C7: adding (or overwriting), removing, or modifying an entry whose
key is in the exclusion set never changes hashConfigMapContent's fingerprint
(for both the text and the binary entry map: `setVal` is Go map assignment,
covering both adding and modifying; `eraseKey` is Go map deletion); and a
source whose entries are all excluded yields the empty fingerprint exactly as
a source with zero entries does, and contributes nothing to the aggregate. -/
theorem claim_c7 (hash : GoStr → GoStr) (cfg : ConfigMap) (excl : List GoStr)
    (k : GoStr) (v : GoStr) :
    (k ∈ excl →
      hashConfigMapContent hash ⟨cfg.name, cfg.labels, setVal cfg.data k v, cfg.binaryData⟩ excl
          = hashConfigMapContent hash cfg excl
        ∧ hashConfigMapContent hash
            ⟨cfg.name, cfg.labels, eraseKey cfg.data k, cfg.binaryData⟩ excl
          = hashConfigMapContent hash cfg excl
        ∧ hashConfigMapContent hash
            ⟨cfg.name, cfg.labels, cfg.data, setVal cfg.binaryData k v⟩ excl
          = hashConfigMapContent hash cfg excl
        ∧ hashConfigMapContent hash
            ⟨cfg.name, cfg.labels, cfg.data, eraseKey cfg.binaryData k⟩ excl
          = hashConfigMapContent hash cfg excl)
    ∧ ((∀ q ∈ cfg.data, q.1 ∈ excl) → (∀ q ∈ cfg.binaryData, q.1 ∈ excl) →
        hashConfigMapContent hash cfg excl = []
          ∧ hashConfigMapContent hash ⟨cfg.name, cfg.labels, [], []⟩ excl = []
          ∧ ∀ cms secs is2, hashConfigSources hash (cfg :: cms) secs excl is2
              = hashConfigSources hash cms secs excl is2) := by
  constructor
  · intro hk
    have hk2 : shouldIgnoreKey k excl = true := by
      rw [shouldIgnoreKey_eq]
      exact decide_eq_true hk
    refine ⟨?_, ?_, ?_, ?_⟩
    · exact hashConfigMapContent_congr hash _ cfg excl
        (filter_setVal_excluded cfg.data k v excl hk2) rfl
    · exact hashConfigMapContent_congr hash _ cfg excl
        (filter_eraseKey_excluded cfg.data k excl hk2) rfl
    · exact hashConfigMapContent_congr hash _ cfg excl rfl
        (filter_setVal_excluded cfg.binaryData k v excl hk2)
    · exact hashConfigMapContent_congr hash _ cfg excl rfl
        (filter_eraseKey_excluded cfg.binaryData k excl hk2)
  · intro hAllD hAllB
    have hfd : cfg.data.filter (fun q => !shouldIgnoreKey q.1 excl) = [] := by
      rw [List.filter_eq_nil_iff]
      intro q hq
      rw [shouldIgnoreKey_eq]
      simp [hAllD q hq]
    have hfb : cfg.binaryData.filter (fun q => !shouldIgnoreKey q.1 excl) = [] := by
      rw [List.filter_eq_nil_iff]
      intro q hq
      rw [shouldIgnoreKey_eq]
      simp [hAllB q hq]
    have hzero : hashConfigMapContent hash ⟨cfg.name, cfg.labels, [], []⟩ excl = [] := by
      simp [hashConfigMapContent]
    have hnil : hashConfigMapContent hash cfg excl = [] := by
      rw [hashConfigMapContent_congr hash cfg ⟨cfg.name, cfg.labels, [], []⟩ excl
        (by simpa using hfd) (by simpa using hfb)]
      exact hzero
    exact ⟨hnil, hzero, fun cms secs is2 => hashConfigSources_drop_cm hash cfg cms secs excl is2 hnil⟩

/-- Witness for claim C7 at a concrete ConfigMap and exclusion set: modifying
the excluded entry keeps the fingerprint, and the all-excluded source has the
empty fingerprint. -/
theorem claim_c7_witness :
    hashConfigMapContent hashW
        ⟨gs "app", [], setVal [(gs "upstreams.yaml", gs "x")] (gs "upstreams.yaml") (gs "y"), []⟩
        [gs "upstreams.yaml"]
      = hashConfigMapContent hashW ⟨gs "app", [], [(gs "upstreams.yaml", gs "x")], []⟩
        [gs "upstreams.yaml"]
    ∧ hashConfigMapContent hashW ⟨gs "app", [], [(gs "upstreams.yaml", gs "x")], []⟩
        [gs "upstreams.yaml"] = [] :=
  ⟨((claim_c7 hashW ⟨gs "app", [], [(gs "upstreams.yaml", gs "x")], []⟩
      [gs "upstreams.yaml"] (gs "upstreams.yaml") (gs "y")).1 (by decide)).1,
    ((claim_c7 hashW ⟨gs "app", [], [(gs "upstreams.yaml", gs "x")], []⟩
      [gs "upstreams.yaml"] (gs "upstreams.yaml") (gs "y")).2 (by decide) (by decide)).1⟩

/-- No source contributes when every source is empty after filtering. -/
theorem sourceEntries_eq_nil (hash : GoStr → GoStr) (cms : List ConfigMap)
    (secs : List Secret) (ic is2 : List GoStr)
    (hcm : ∀ cfg ∈ cms, hashConfigMapContent hash cfg ic = [])
    (hsec : ∀ s ∈ secs, hashSecretContent hash s is2 = []) :
    sourceEntries hash cms secs ic is2 = [] := by
  unfold sourceEntries
  rw [List.filterMap_eq_nil_iff.mpr (fun a ha => by simp [hcm a ha]),
    List.filterMap_eq_nil_iff.mpr (fun a ha => by simp [hsec a ha])]
  rfl

/-- Every event the patch loop emits is a patch of its own workload kind with
the configured key and target fingerprint. -/
theorem patchWorkloadList_events (kind : WKind) (patchFn : Workload → Option StoreErr)
    (key h : GoStr) :
    ∀ ws : List Workload, ∀ ev ∈ (patchWorkloadList kind patchFn key h ws).2,
      ∃ n, ev = .patchWorkload kind n key h := by
  intro ws
  induction ws with
  | nil => intro ev hev; simp [patchWorkloadList] at hev
  | cons w rest ih =>
    intro ev hev
    by_cases hc : (patchDeploymentHash patchFn w key h).changed = true
    · rcases herr : (patchDeploymentHash patchFn w key h).err with _ | e
      · simp only [patchWorkloadList, hc, if_true, herr] at hev
        rcases List.mem_cons.mp hev with hev2 | hev2
        · exact ⟨w.name, hev2⟩
        · exact ih ev hev2
      · simp only [patchWorkloadList, hc, if_true, herr] at hev
        rcases List.mem_cons.mp hev with hev2 | hev2
        · exact ⟨w.name, hev2⟩
        · simp at hev2
    · simp only [Bool.not_eq_true] at hc
      simp only [patchWorkloadList, hc, Bool.false_eq_true, if_false] at hev
      exact ih ev hev

/-- Claim C6: for every pair of source lists with names unique within each
list and every pair of exclusion sets, permuting either input list never
changes the aggregate fingerprint returned by hashConfigSources. -/
theorem claim_c6 (hash : GoStr → GoStr) (cms₁ cms₂ : List ConfigMap)
    (secs₁ secs₂ : List Secret) (ic is2 : List GoStr)
    (hpc : cms₁.Perm cms₂) (hps : secs₁.Perm secs₂)
    (hnc : (cms₁.map ConfigMap.name).Nodup) (hns : (secs₁.map Secret.name).Nodup) :
    hashConfigSources hash cms₁ secs₁ ic is2 = hashConfigSources hash cms₂ secs₂ ic is2 := by
  have hpe : (sourceEntries hash cms₁ secs₁ ic is2).Perm
      (sourceEntries hash cms₂ secs₂ ic is2) := by
    unfold sourceEntries
    exact (hpc.filterMap _).append (hps.filterMap _)
  have hnd := sourceEntries_keys_nodup hash cms₁ secs₁ ic is2 hnc hns
  have hsort := insertionSort_eq_of_perm_nodupkeys hpe hnd
  unfold hashConfigSources
  by_cases h : sourceEntries hash cms₁ secs₁ ic is2 = []
  · have h2 : sourceEntries hash cms₂ secs₂ ic is2 = [] := by
      have hl := hpe.length_eq
      rw [h] at hl
      exact List.length_eq_zero.mp hl.symm
    simp only [h, h2, if_pos rfl]
  · have h2 : sourceEntries hash cms₂ secs₂ ic is2 ≠ [] := by
      intro h0
      apply h
      have hl := hpe.length_eq
      rw [h0] at hl
      exact List.length_eq_zero.mp hl
    rw [if_neg h, if_neg h2, hsort]

/-- Witness for claim C6: swapping two ConfigMaps leaves the aggregate
fingerprint unchanged. -/
theorem claim_c6_witness :
    hashConfigSources hashW
        [⟨gs "a", [], [(gs "k", gs "x")], []⟩, ⟨gs "b", [], [(gs "k", gs "y")], []⟩] [] [] []
      = hashConfigSources hashW
        [⟨gs "b", [], [(gs "k", gs "y")], []⟩, ⟨gs "a", [], [(gs "k", gs "x")], []⟩] [] [] [] :=
  claim_c6 hashW
    [⟨gs "a", [], [(gs "k", gs "x")], []⟩, ⟨gs "b", [], [(gs "k", gs "y")], []⟩]
    [⟨gs "b", [], [(gs "k", gs "y")], []⟩, ⟨gs "a", [], [(gs "k", gs "x")], []⟩]
    [] [] [] [] (by decide) (by decide) (by decide) (by decide)

/-- Claim C9: a ConfigMap and a Secret of the same name contribute distinct
canonical identities ("configmap/" vs "secret/"), so for any injective digest
the aggregate over a scope holding only the ConfigMap differs from the one
over a scope holding only the Secret, whatever the two per-source
fingerprints are (in particular when equal). -/
theorem claim_c9 (hash : GoStr → GoStr) (hinj : Function.Injective hash)
    (n : GoStr) (cm : ConfigMap) (s : Secret) (ic is2 : List GoStr)
    (hcn : cm.name = n) (hsn : s.name = n)
    (hc : hashConfigMapContent hash cm ic ≠ [])
    (hs : hashSecretContent hash s is2 ≠ []) :
    hashConfigSources hash [cm] [] ic is2 ≠ hashConfigSources hash [] [s] ic is2 := by
  rw [hashConfigSources_single_cm hash cm ic is2 hc,
    hashConfigSources_single_secret hash s ic is2 hs, hcn, hsn]
  intro heq
  have h0 := congrArg List.head? (hinj heq)
  rw [head_configmapAgg3, head_secretAgg3] at h0
  exact absurd h0 (by decide)

/-- Witness for claim C9 at a same-named ConfigMap and Secret with identical
entry content. -/
theorem claim_c9_witness :
    hashConfigSources hashW [⟨gs "app", [], [(gs "k", gs "x")], []⟩] [] [] []
      ≠ hashConfigSources hashW [] [⟨gs "app", [], [(gs "k", gs "x")]⟩] [] [] :=
  claim_c9 hashW hashW_inj (gs "app") ⟨gs "app", [], [(gs "k", gs "x")], []⟩
    ⟨gs "app", [], [(gs "k", gs "x")]⟩ [] [] rfl rfl (by decide) (by decide)

/-- With nil exclusion sets the generalized per-source fingerprint equals the
simple variant's (the filters are identities and the post-filter emptiness
check collapses into the entry emptiness check). -/
theorem hashConfigMapContent_nil_excl (hash : GoStr → GoStr) (cfg : ConfigMap) :
    hashConfigMapContent hash cfg [] = hashConfigMapContentSimple hash cfg := by
  have hkeys : cmKeys cfg []
      = (cfg.data.map Prod.fst).map (fun k => gs "s:" ++ k)
        ++ (cfg.binaryData.map Prod.fst).map (fun k => gs "b:" ++ k) := by
    unfold cmKeys
    simp [shouldIgnoreKey]
  unfold hashConfigMapContent hashConfigMapContentSimple
  by_cases h0 : cfg.data = [] ∧ cfg.binaryData = []
  · simp [h0, cmKeys_eq_nil_of_empty cfg [] h0]
  · rw [if_neg h0, if_neg h0, hkeys, if_neg ?hne]
    case hne =>
      intro hk
      rcases List.append_eq_nil.mp hk with ⟨h1, h2⟩
      exact h0 ⟨by simpa using h1, by simpa using h2⟩

/-- The always-successful patch loop on workloads that all need the patch
issues one write per workload, in order. -/
theorem patchWorkloadList_all_changed (kind : WKind) (key h : GoStr) :
    ∀ ws : List Workload, (∀ w ∈ ws, getAnn w key ≠ h) →
      patchWorkloadList kind (fun _ => none) key h ws
        = (none, ws.map (fun w => .patchWorkload kind w.name key h)) := by
  intro ws
  induction ws with
  | nil => intro _; rfl
  | cons w rest ih =>
    intro hall
    have hw : getAnn w key ≠ h := hall w (List.mem_cons_self w rest)
    have hrec := ih (fun x hx => hall x (List.mem_cons_of_mem w hx))
    simp [patchWorkloadList, patchDeploymentHash, hw, hrec]

/-- Every hashed block of a ConfigMap starts with a tag byte or the NUL
separator. -/
theorem taggedBlock_head (cfg : ConfigMap) (tk : GoStr) :
    (taggedBlock cfg tk).head? = some 115 ∨ (taggedBlock cfg tk).head? = some 98
      ∨ (taggedBlock cfg tk).head? = some 0 := by
  unfold taggedBlock
  split
  · left; rfl
  · right; left; rfl
  · right; right; rfl

/-- A nonempty block stream of a ConfigMap starts with a tag byte or NUL. -/
theorem flatten_head_of_blocks (cfg : ConfigMap) (S : List GoStr) (hS : S ≠ []) :
    ((S.map (taggedBlock cfg)).flatten).head? = some 115
      ∨ ((S.map (taggedBlock cfg)).flatten).head? = some 98
      ∨ ((S.map (taggedBlock cfg)).flatten).head? = some 0 := by
  obtain ⟨s₀, S', rfl⟩ := List.exists_cons_of_ne_nil hS
  rw [List.map_cons, List.flatten_cons]
  have hne : taggedBlock cfg s₀ ≠ [] := by
    unfold taggedBlock
    split <;> simp
  obtain ⟨b₀, bt, hb⟩ := List.exists_cons_of_ne_nil hne
  have hhd := taggedBlock_head cfg s₀
  rw [hb] at hhd
  rw [hb, List.cons_append]
  simpa using hhd

/-- The aggregate fingerprint over one ConfigMap never equals the simple
variant's per-source fingerprint: the aggregate's digest input starts with the
identity byte of "configmap/", the per-source digest input with a tag byte or
NUL. -/
theorem aggregate_ne_simple (hash : GoStr → GoStr) (hinj : Function.Injective hash)
    (hne : ∀ l, hash l ≠ []) (cfg : ConfigMap)
    (h0 : ¬(cfg.data = [] ∧ cfg.binaryData = [])) :
    hashConfigSources hash [cfg] [] [] [] ≠ hashConfigMapContentSimple hash cfg := by
  have hfp : hashConfigMapContentSimple hash cfg ≠ [] := by
    unfold hashConfigMapContentSimple
    rw [if_neg h0]
    exact hne _
  have hfp' : hashConfigMapContent hash cfg [] ≠ [] := by
    rw [hashConfigMapContent_nil_excl]
    exact hfp
  rw [hashConfigSources_single_cm hash cfg [] [] hfp']
  unfold hashConfigMapContentSimple
  rw [if_neg h0]
  intro heq
  have hstreams := hinj heq
  have hhead := congrArg List.head? hstreams
  rw [head_configmapAgg3] at hhead
  have hS : ((cfg.data.map Prod.fst).map (fun k => gs "s:" ++ k)
      ++ (cfg.binaryData.map Prod.fst).map (fun k => gs "b:" ++ k)) ≠ [] := by
    intro hk
    rcases List.append_eq_nil.mp hk with ⟨h1, h2⟩
    exact h0 ⟨by simpa using h1, by simpa using h2⟩
  have hSne : List.insertionSort keyLe
      ((cfg.data.map Prod.fst).map (fun k => gs "s:" ++ k)
        ++ (cfg.binaryData.map Prod.fst).map (fun k => gs "b:" ++ k)) ≠ [] := by
    intro hk
    apply hS
    have hp := List.perm_insertionSort keyLe
      ((cfg.data.map Prod.fst).map (fun k => gs "s:" ++ k)
        ++ (cfg.binaryData.map Prod.fst).map (fun k => gs "b:" ++ k))
    rw [hk] at hp
    exact (List.length_eq_zero.mp (by simpa using hp.length_eq.symm))
  rcases flatten_head_of_blocks cfg _ hSne with h1 | h1 | h1 <;> rw [h1] at hhead <;>
    exact absurd hhead (by decide)

/-- Claim C5: a reconciliation pass whose reads all succeed and whose matching
sources are all empty after filtering computes the empty aggregate
fingerprint, returns success, and issues zero patch calls (its trace holds
exactly the two source list reads), leaving every workload unchanged. -/
theorem claim_c5 (hash : GoStr → GoStr) (r : GenCfg) (c : Client) (req : NsName)
    (cms : List ConfigMap) (secs : List Secret)
    (hget : getPhase c req = none)
    (hlc : c.listConfigMaps req.ns = .ok cms)
    (hls : c.listSecrets req.ns = .ok secs)
    (hcm : ∀ cfg ∈ cms, hashConfigMapContent hash cfg r.ignoredConfigMapKeys = [])
    (hsec : ∀ s ∈ secs, hashSecretContent hash s r.ignoredSecretKeys = []) :
    Reconcile hash r c req = (none, [.listConfigMaps, .listSecrets]) := by
  have hagg : hashConfigSources hash cms secs r.ignoredConfigMapKeys r.ignoredSecretKeys = [] := by
    unfold hashConfigSources
    simp [sourceEntries_eq_nil hash cms secs _ _ hcm hsec]
  simp [Reconcile, computeCombinedHash, hget, hlc, hls, hagg]

/-- Witness for claim C5: a source holding only the (excluded) key
upstreams.yaml produces a successful pass with zero patch calls. -/
theorem claim_c5_witness :
    Reconcile hashW ⟨gs "k", [gs "upstreams.yaml"], []⟩ wClientC5 ⟨gs "ns", gs "app"⟩
      = (none, [.listConfigMaps, .listSecrets]) :=
  claim_c5 hashW ⟨gs "k", [gs "upstreams.yaml"], []⟩ wClientC5 ⟨gs "ns", gs "app"⟩
    [⟨gs "app", [], [(gs "upstreams.yaml", gs "x")], []⟩] []
    rfl rfl rfl (by decide) (by decide)

/-- Claim C2 (amended): a hard (non-not-found) failure of any config-source
read (the two gets, the ConfigMap list, the Secret list) or of the Deployment
list aborts the pass with that error before any patch write has been issued
(the traces below contain no patch events). The original claim's "all reads
happen before any write" is false on the code: the DaemonSet and StatefulSet
lists are read after Deployments were already patched, so a read failure
there leaves earlier patches in place (see the counterexample). -/
theorem claim_c2_amended (hash : GoStr → GoStr) (r : GenCfg) (c : Client)
    (req : NsName) (e : StoreErr) :
    (c.getConfigMap req = .error e → e ≠ .notFound →
      Reconcile hash r c req = (some e, []))
    ∧ (c.getConfigMap req = .error .notFound → c.getSecret req = .error e →
        e ≠ .notFound → Reconcile hash r c req = (some e, []))
    ∧ (getPhase c req = none → c.listConfigMaps req.ns = .error e →
        Reconcile hash r c req = (some e, [.listConfigMaps]))
    ∧ (∀ cms, getPhase c req = none → c.listConfigMaps req.ns = .ok cms →
        c.listSecrets req.ns = .error e →
        Reconcile hash r c req = (some e, [.listConfigMaps, .listSecrets]))
    ∧ (∀ cms secs, getPhase c req = none → c.listConfigMaps req.ns = .ok cms →
        c.listSecrets req.ns = .ok secs →
        hashConfigSources hash cms secs r.ignoredConfigMapKeys r.ignoredSecretKeys ≠ [] →
        c.listDeployments req.ns = .error e →
        Reconcile hash r c req
          = (some e, [.listConfigMaps, .listSecrets, .listWorkloads .deployment])) := by
  refine ⟨?_, ?_, ?_, ?_, ?_⟩
  · intro hg hnf
    have hp : getPhase c req = some e := by
      simp [getPhase, hg, hnf]
    simp [Reconcile, hp]
  · intro hg hg2 hnf
    have hp : getPhase c req = some e := by
      simp [getPhase, hg, hg2, hnf]
    simp [Reconcile, hp]
  · intro hp hlc
    simp [Reconcile, computeCombinedHash, hp, hlc]
  · intro cms hp hlc hls
    simp [Reconcile, computeCombinedHash, hp, hlc, hls]
  · intro cms secs hp hlc hls hagg hld
    simp [Reconcile, computeCombinedHash, patchDeployments, hp, hlc, hls, hagg, hld]

/-- Counterexample to claim C2 as stated: with every source read succeeding,
one Deployment needing the patch, and the DaemonSet list failing hard, the
pass returns the read error after a patch write was already issued — reads do
not all happen before writes. -/
theorem claim_c2_counterexample :
    (Reconcile hashW ⟨gs "k", [], []⟩ cexClientC2 ⟨gs "ns", gs "app"⟩).1 = some (.fault 7)
    ∧ ((Reconcile hashW ⟨gs "k", [], []⟩ cexClientC2 ⟨gs "ns", gs "app"⟩).2.any
        Event.isPatch) = true := by
  constructor
  · decide
  · decide

/-- Witness for claim C2 (amended): a hard ConfigMap-list failure aborts the
pass with that error and an empty patch record. -/
theorem claim_c2_amended_witness :
    Reconcile hashW ⟨gs "k", [], []⟩ wClientListFail ⟨gs "ns", gs "app"⟩
      = (some (.fault 3), [.listConfigMaps]) :=
  (claim_c2_amended hashW ⟨gs "k", [], []⟩ wClientListFail ⟨gs "ns", gs "app"⟩
    (.fault 3)).2.2.1 rfl rfl

/-- Claim C8: once a pass reaches the propagation phase, the first hard error
from a workload list or patch operation aborts the whole pass: the error is
returned unmodified and no workload of a later kind in the fixed order
Deployments, DaemonSets, StatefulSets is listed or patched after the failing
operation (each trace below ends at the failing operation, and the events of
an aborted patch loop are all patches of its own kind). -/
theorem claim_c8 (hash : GoStr → GoStr) (r : GenCfg) (c : Client) (req : NsName)
    (cms : List ConfigMap) (secs : List Secret) (h : GoStr) (e : StoreErr)
    (hget : getPhase c req = none)
    (hlc : c.listConfigMaps req.ns = .ok cms)
    (hls : c.listSecrets req.ns = .ok secs)
    (hh : hashConfigSources hash cms secs r.ignoredConfigMapKeys r.ignoredSecretKeys = h)
    (hne : h ≠ []) :
    (c.listDeployments req.ns = .error e →
      Reconcile hash r c req
        = (some e, [.listConfigMaps, .listSecrets, .listWorkloads .deployment]))
    ∧ (∀ ds evs, c.listDeployments req.ns = .ok ds →
        patchWorkloadList .deployment c.patchDeployment r.annotationKey h ds
          = (some e, evs) →
        Reconcile hash r c req
            = (some e, [.listConfigMaps, .listSecrets, .listWorkloads .deployment] ++ evs)
          ∧ ∀ ev ∈ evs, ∃ n, ev = .patchWorkload .deployment n r.annotationKey h)
    ∧ (∀ devs, patchDeployments c r.annotationKey req.ns h = (none, devs) →
        c.listDaemonSets req.ns = .error e →
        Reconcile hash r c req
          = (some e, [.listConfigMaps, .listSecrets] ++ devs ++ [.listWorkloads .daemonSet]))
    ∧ (∀ devs ds evs, patchDeployments c r.annotationKey req.ns h = (none, devs) →
        c.listDaemonSets req.ns = .ok ds →
        patchWorkloadList .daemonSet c.patchDaemonSet r.annotationKey h ds
          = (some e, evs) →
        Reconcile hash r c req
            = (some e, [.listConfigMaps, .listSecrets] ++ devs
                ++ (.listWorkloads .daemonSet :: evs))
          ∧ ∀ ev ∈ evs, ∃ n, ev = .patchWorkload .daemonSet n r.annotationKey h)
    ∧ (∀ devs dsevs stevs, patchDeployments c r.annotationKey req.ns h = (none, devs) →
        patchDaemonSets c r.annotationKey req.ns h = (none, dsevs) →
        patchStatefulSets c r.annotationKey req.ns h = (some e, stevs) →
        Reconcile hash r c req
          = (some e, [.listConfigMaps, .listSecrets] ++ devs ++ dsevs ++ stevs)) := by
  refine ⟨?_, ?_, ?_, ?_, ?_⟩
  · intro hld
    simp [Reconcile, computeCombinedHash, patchDeployments, hget, hlc, hls, hh, hne, hld]
  · intro ds evs hld hloop
    constructor
    · simp [Reconcile, computeCombinedHash, patchDeployments, hget, hlc, hls, hh, hne,
        hld, hloop]
    · intro ev hev
      exact patchWorkloadList_events .deployment c.patchDeployment r.annotationKey h ds ev
        (by rw [hloop]; exact hev)
  · intro devs hd hlds
    simp [Reconcile, computeCombinedHash, patchDaemonSets, hget, hlc, hls, hh, hne,
      hd, hlds]
  · intro devs ds evs hd hlds hloop
    constructor
    · simp [Reconcile, computeCombinedHash, patchDaemonSets, hget, hlc, hls, hh, hne,
        hd, hlds, hloop]
    · intro ev hev
      exact patchWorkloadList_events .daemonSet c.patchDaemonSet r.annotationKey h ds ev
        (by rw [hloop]; exact hev)
  · intro devs dsevs stevs hd hds hst
    simp [Reconcile, computeCombinedHash, hget, hlc, hls, hh, hne, hd, hds, hst]

/-- Witness for claim C8: a hard DaemonSet-list failure after a successful
Deployment phase returns that error with nothing after the failing list. -/
theorem claim_c8_witness :
    Reconcile hashW ⟨gs "k", [], []⟩ wClientC8 ⟨gs "ns", gs "app"⟩
      = (some (.fault 9),
          [.listConfigMaps, .listSecrets]
            ++ [.listWorkloads .deployment,
              .patchWorkload .deployment (gs "d") (gs "k")
                  (hashConfigSources hashW [wCM] [] [] [])]
            ++ [.listWorkloads .daemonSet]) :=
  (claim_c8 hashW ⟨gs "k", [], []⟩ wClientC8 ⟨gs "ns", gs "app"⟩ [wCM] []
      (hashConfigSources hashW [wCM] [] [] []) (.fault 9)
      rfl rfl rfl rfl (by decide)).2.2.1
    [.listWorkloads .deployment,
      .patchWorkload .deployment (gs "d") (gs "k") (hashConfigSources hashW [wCM] [] [] [])]
    (by decide) rfl

/-- Claim C3 (amended): in the degenerate configuration (one labelled
ConfigMap, no Secrets, no DaemonSets or StatefulSets, nil exclusion sets, the
default selector and the default annotation key, and no Deployment already at
either fingerprint) the generalized Reconcile patches exactly the same
matching Deployments under the same annotation key as the simple variant's
Reconcile, but it does not write the same annotation value: the simple
variant writes the per-source fingerprint hashConfigMapContent(cfg) while the
generalized variant writes the aggregate fingerprint
hashConfigSources([cfg], []), and these two values always differ. -/
theorem claim_c3_amended (hash : GoStr → GoStr) (hinj : Function.Injective hash)
    (hne : ∀ l, hash l ≠ [])
    (st : Store) (cfg : ConfigMap) (req : NsName)
    (hcms : st.configMaps = [cfg])
    (hsecs : st.secrets = [])
    (hds0 : st.daemonSets = [])
    (hsts0 : st.statefulSets = [])
    (hname : cfg.name = req.name)
    (hlbl : labelMatch (synapseLabelKey, synapseLabelValue) cfg.labels = true)
    (h0 : ¬(cfg.data = [] ∧ cfg.binaryData = []))
    (hann : ∀ d ∈ st.deployments.filter
        (fun w => labelMatch (synapseLabelKey, synapseLabelValue) w.labels),
      getAnn d configHashAnnotKey ≠ hashConfigMapContentSimple hash cfg
        ∧ getAnn d configHashAnnotKey ≠ hashConfigSources hash [cfg] [] [] []) :
    ReconcileSimple hash (clientOfStore st (synapseLabelKey, synapseLabelValue)) req
        = (none, .listWorkloads .deployment
            :: (st.deployments.filter
                (fun w => labelMatch (synapseLabelKey, synapseLabelValue) w.labels)).map
              (fun d => .patchWorkload .deployment d.name configHashAnnotKey
                (hashConfigMapContentSimple hash cfg)))
      ∧ Reconcile hash ⟨configHashAnnotKey, [], []⟩
            (clientOfStore st (synapseLabelKey, synapseLabelValue)) req
          = (none, [.listConfigMaps, .listSecrets, .listWorkloads .deployment]
              ++ (st.deployments.filter
                  (fun w => labelMatch (synapseLabelKey, synapseLabelValue) w.labels)).map
                (fun d => .patchWorkload .deployment d.name configHashAnnotKey
                  (hashConfigSources hash [cfg] [] [] []))
              ++ [.listWorkloads .daemonSet, .listWorkloads .statefulSet])
      ∧ hashConfigSources hash [cfg] [] [] []
          ≠ hashConfigMapContentSimple hash cfg := by
  have hget : (clientOfStore st (synapseLabelKey, synapseLabelValue)).getConfigMap req
      = .ok cfg := by
    simp [clientOfStore, hcms, hname]
  have hlb2 : (findVal cfg.labels synapseLabelKey).getD [] = synapseLabelValue :=
    of_decide_eq_true hlbl
  have hfp : hashConfigMapContentSimple hash cfg ≠ [] := by
    unfold hashConfigMapContentSimple
    rw [if_neg h0]
    exact hne _
  have hfp' : hashConfigMapContent hash cfg [] ≠ [] := by
    rw [hashConfigMapContent_nil_excl]
    exact hfp
  have hldep : (clientOfStore st (synapseLabelKey, synapseLabelValue)).listDeployments req.ns
      = .ok (st.deployments.filter
        (fun w => labelMatch (synapseLabelKey, synapseLabelValue) w.labels)) := rfl
  have hloop : patchWorkloadList .deployment
      ((clientOfStore st (synapseLabelKey, synapseLabelValue)).patchDeployment)
      configHashAnnotKey (hashConfigMapContentSimple hash cfg)
      (st.deployments.filter
        (fun w => labelMatch (synapseLabelKey, synapseLabelValue) w.labels))
      = (none, (st.deployments.filter
          (fun w => labelMatch (synapseLabelKey, synapseLabelValue) w.labels)).map
        (fun d => .patchWorkload .deployment d.name configHashAnnotKey
          (hashConfigMapContentSimple hash cfg))) :=
    patchWorkloadList_all_changed .deployment configHashAnnotKey _ _
      (fun d hd => (hann d hd).1)
  refine ⟨?_, ?_, aggregate_ne_simple hash hinj hne cfg h0⟩
  · simp [ReconcileSimple, hget, hlb2, hfp, hldep, hloop]
  · have hgp : getPhase (clientOfStore st (synapseLabelKey, synapseLabelValue)) req
        = none := by
      simp [getPhase, hget]
    have hlcm : (clientOfStore st (synapseLabelKey, synapseLabelValue)).listConfigMaps req.ns
        = .ok [cfg] := by
      simp [clientOfStore, hcms, hlbl]
    have hlsec : (clientOfStore st (synapseLabelKey, synapseLabelValue)).listSecrets req.ns
        = .ok [] := by
      simp [clientOfStore, hsecs]
    have haggne : hashConfigSources hash [cfg] [] [] [] ≠ [] := by
      rw [hashConfigSources_single_cm hash cfg [] [] hfp']
      exact hne _
    have hgloop : patchWorkloadList .deployment
        ((clientOfStore st (synapseLabelKey, synapseLabelValue)).patchDeployment)
        configHashAnnotKey (hashConfigSources hash [cfg] [] [] [])
        (st.deployments.filter
          (fun w => labelMatch (synapseLabelKey, synapseLabelValue) w.labels))
        = (none, (st.deployments.filter
            (fun w => labelMatch (synapseLabelKey, synapseLabelValue) w.labels)).map
          (fun d => .patchWorkload .deployment d.name configHashAnnotKey
            (hashConfigSources hash [cfg] [] [] []))) :=
      patchWorkloadList_all_changed .deployment configHashAnnotKey _ _
        (fun d hd => (hann d hd).2)
    have hdep : patchDeployments (clientOfStore st (synapseLabelKey, synapseLabelValue))
        configHashAnnotKey req.ns (hashConfigSources hash [cfg] [] [] [])
        = (none, .listWorkloads .deployment
            :: (st.deployments.filter
                (fun w => labelMatch (synapseLabelKey, synapseLabelValue) w.labels)).map
              (fun d => .patchWorkload .deployment d.name configHashAnnotKey
                (hashConfigSources hash [cfg] [] [] []))) := by
      simp [patchDeployments, hldep, hgloop]
    have hdsphase : ∀ hv, patchDaemonSets
        (clientOfStore st (synapseLabelKey, synapseLabelValue)) configHashAnnotKey req.ns hv
        = (none, [.listWorkloads .daemonSet]) := by
      intro hv
      simp [patchDaemonSets, clientOfStore, hds0, patchWorkloadList]
    have hstsphase : ∀ hv, patchStatefulSets
        (clientOfStore st (synapseLabelKey, synapseLabelValue)) configHashAnnotKey req.ns hv
        = (none, [.listWorkloads .statefulSet]) := by
      intro hv
      simp [patchStatefulSets, clientOfStore, hsts0, patchWorkloadList]
    simp [Reconcile, computeCombinedHash, hgp, hlcm, hlsec, haggne, hdep,
      hdsphase, hstsphase]

/-- Counterexample to claim C3 as stated: in the degenerate configuration over
a concrete store, both variants patch the same Deployment under the same key,
but the annotation values they write differ (per-source versus aggregate
fingerprint), so the generalized variant does not write the same annotation
value as the simple one. -/
theorem claim_c3_counterexample :
    (ReconcileSimple hashW (clientOfStore wStore (synapseLabelKey, synapseLabelValue))
        ⟨gs "ns", gs "app"⟩).2
      = [.listWorkloads .deployment,
          .patchWorkload .deployment (gs "d") configHashAnnotKey
            (hashConfigMapContentSimple hashW wCM)]
    ∧ (Reconcile hashW ⟨configHashAnnotKey, [], []⟩
          (clientOfStore wStore (synapseLabelKey, synapseLabelValue))
          ⟨gs "ns", gs "app"⟩).2
      = [.listConfigMaps, .listSecrets, .listWorkloads .deployment,
          .patchWorkload .deployment (gs "d") configHashAnnotKey
            (hashConfigSources hashW [wCM] [] [] []),
          .listWorkloads .daemonSet, .listWorkloads .statefulSet]
    ∧ hashConfigSources hashW [wCM] [] [] [] ≠ hashConfigMapContentSimple hashW wCM :=
  ⟨by decide, by decide, by decide⟩

/-- Witness for claim C3 (amended) at the concrete degenerate store. -/
theorem claim_c3_amended_witness :
    ReconcileSimple hashW (clientOfStore wStore (synapseLabelKey, synapseLabelValue))
        ⟨gs "ns", gs "app"⟩
      = (none, .listWorkloads .deployment
          :: (wStore.deployments.filter
              (fun w => labelMatch (synapseLabelKey, synapseLabelValue) w.labels)).map
            (fun d => .patchWorkload .deployment d.name configHashAnnotKey
              (hashConfigMapContentSimple hashW wCM)))
    ∧ Reconcile hashW ⟨configHashAnnotKey, [], []⟩
          (clientOfStore wStore (synapseLabelKey, synapseLabelValue)) ⟨gs "ns", gs "app"⟩
        = (none, [.listConfigMaps, .listSecrets, .listWorkloads .deployment]
            ++ (wStore.deployments.filter
                (fun w => labelMatch (synapseLabelKey, synapseLabelValue) w.labels)).map
              (fun d => .patchWorkload .deployment d.name configHashAnnotKey
                (hashConfigSources hashW [wCM] [] [] []))
            ++ [.listWorkloads .daemonSet, .listWorkloads .statefulSet])
    ∧ hashConfigSources hashW [wCM] [] [] [] ≠ hashConfigMapContentSimple hashW wCM :=
  claim_c3_amended hashW hashW_inj hashW_ne_nil wStore wCM ⟨gs "ns", gs "app"⟩
    rfl rfl rfl rfl rfl (by decide) (by decide) (by decide)

end SynapseOperator
